import Mathlib

set_option autoImplicit false

namespace Jit

/-! Shallow embedding of the in-process linking layer of `score-addon-jit`
(file `src/JitCpp/ApplicationPlugin.cpp`): the `ScoreLinkingLayer` and
`LinkedObject` machinery (a vendored variant of the legacy LLVM ORC
`RTDyldObjectLinkingLayer`), together with the addon set-up entry point
`ApplicationPlugin::setupAddon`.  Machine addresses are modelled as `Nat`
(`0` plays the role of the null `JITTargetAddress`), `llvm::StringMap` as an
association list, and `std::map<VModuleKey, ...>` as a key-sorted
association list.  The behaviour of `RuntimeDyld` (`loadObject`,
`getSymbolTable`, `finalizeWithMemoryManagerLocking`, `hasError`) is an
external dependency of the code and is abstracted as a `LoadResult` value
passed to `finalize`. -/

/-- Model of `llvm::JITEvaluatedSymbol`: a target address together with the
only symbol flag the layer ever inspects, the `Exported` bit. -/
structure JITEvaluatedSymbol where
  address : Nat
  exported : Bool
deriving DecidableEq

/-- Model of a `llvm::StringMap<JITEvaluatedSymbol>` as an association
list with distinct keys maintained by the insertion operations below. -/
abbrev SymTab := List (String × JITEvaluatedSymbol)

/-- Lookup of the entry with the given name (`StringMap::find`). -/
def tblFind (t : SymTab) (n : String) : Option JITEvaluatedSymbol :=
  match t with
  | [] => none
  | kv :: rest => if kv.1 = n then some kv.2 else tblFind rest n

/-- Model of `StringMap::insert`, which keeps the existing entry when the
key is already present (used by `buildInitialSymbolTable`, line 349). -/
def insertIfAbsent (t : SymTab) (n : String) (v : JITEvaluatedSymbol) : SymTab :=
  match t with
  | [] => [(n, v)]
  | kv :: rest => if kv.1 = n then kv :: rest else kv :: insertIfAbsent rest n v

/-- Model of `StringMap::operator[]` followed by assignment: insert or
overwrite (used by the symbol-table copy in `finalize`, line 283). -/
def setEntry (t : SymTab) (n : String) (v : JITEvaluatedSymbol) : SymTab :=
  match t with
  | [] => [(n, v)]
  | kv :: rest => if kv.1 = n then (n, v) :: rest else kv :: setEntry rest n v

/-- One symbol record of a relocatable object file, with the outcomes of the
fallible accessors used by `buildInitialSymbolTable`: whether
`Symbol.getFlags()` succeeded (`flagsOk`), the `SF_Undefined` bit
(`undefined`), whether `Symbol.getName()` succeeded (`nameOk`), and the
`Exported` bit of `JITSymbolFlags::fromObjectSymbol` (`exported`). -/
structure ObjSymbol where
  name : String
  undefined : Bool
  flagsOk : Bool
  nameOk : Bool
  exported : Bool
deriving DecidableEq

/-- A parsed relocatable object file (`object::ObjectFile`): its symbol
records, in object order. -/
structure ObjectFile where
  symbols : List ObjSymbol
deriving DecidableEq

/-- A memory buffer handed to `addObject`; `valid` records whether
`object::ObjectFile::createObjectFile` succeeds on it (line 442). -/
structure ObjectBuffer where
  valid : Bool
  file : ObjectFile
deriving DecidableEq

/-- One iteration of the loop of
`ConcreteLinkedObject::buildInitialSymbolTable` (lines 329-351): skip a
symbol whose flags cannot be read or that is undefined, and a symbol whose
name cannot be read; insert every remaining one with address `0` and its
exported flag. -/
def buildSymStep (t : SymTab) (s : ObjSymbol) : SymTab :=
  if !s.flagsOk || s.undefined then t
  else if !s.nameOk then t
  else insertIfAbsent t s.name ⟨0, s.exported⟩

/-- Model of `ConcreteLinkedObject::buildInitialSymbolTable` (lines
327-352): fold `buildSymStep` over the object symbols, starting from the
empty table. -/
def buildInitialSymbolTable (obj : ObjectFile) : SymTab :=
  obj.symbols.foldl buildSymStep []

/-- Error outcomes of the linking layer.  `objectParse` is the error
returned by `createObjectFile` (line 444); `rtDyldError` is the
`StringError` built from `RuntimeDyld::getErrorString` (lines 291-293); the
`assert...` constructors stand for the `assert` statements of the source
(lines 267, 446, 471, 502, 513, 522), which abort a debug build: firing one
is modelled as an error with the state left unchanged. -/
inductive JitError where
  | objectParse
  | rtDyldError (msg : String)
  | assertPFC
  | assertKeyInUse
  | assertKeyMissing
deriving DecidableEq

/-- Model of `llvm::JITSymbol` as returned by the layer: the null symbol, a
symbol backed by a materializer functor (`JITSymbol(GetAddressFtor, Flags)`,
line 200), or an evaluated symbol (`JITSymbol(JITEvaluatedSymbol)`, line
202). -/
inductive JITSymbol where
  | null
  | materialize (name : String) (exported : Bool)
  | evaluated (s : JITEvaluatedSymbol)
deriving DecidableEq

/-- Truth value of `JITSymbol::operator bool`: true when a materializer
functor is attached or the cached address is non-null. -/
def JITSymbol.toBool : JITSymbol → Bool
  | .null => false
  | .materialize _ _ => true
  | .evaluated s => s.address != 0

/-- Value of `JITSymbol::getAddress()` for the symbols produced by a
finalized module: the cached address (the `materialize` case would invoke
the functor; it is unreachable in the one place this model uses
`getAddress`, inside the materializer after `Finalized` is set). -/
def JITSymbol.getAddress : JITSymbol → Nat
  | .null => 0
  | .materialize _ _ => 0
  | .evaluated s => s.address

/-- Model of `ConcreteLinkedObject::PreFinalizeContents` (lines 356-372):
the owned object file kept until finalization.  The resolver and the
`ProcessAllSections` flag only parameterize the external `RuntimeDyld`
run, which is abstracted as `LoadResult`. -/
structure PreFinalizeContents where
  obj : ObjectFile
deriving DecidableEq

/-- Model of `ScoreLinkingLayerBase::LinkedObject` (lines 175-208) in its
concrete form `ConcreteLinkedObject`: the module symbol table, the
`Finalized` flag, and the optional pre-finalize contents (`PFC`, null once
finalization has completed successfully). -/
structure LinkedObject where
  SymbolTable : SymTab
  Finalized : Bool
  PFC : Option PreFinalizeContents
deriving DecidableEq

/-- Abstraction of one `RuntimeDyld` run over a module's object: the symbol
table it reports after `loadObject` (`getSymbolTable`, concrete addresses),
whether `hasError()` holds after `finalizeWithMemoryManagerLocking`, and
the error string. -/
structure LoadResult where
  symtab : SymTab
  hasError : Bool
  errMsg : String
deriving DecidableEq

/-- Model of `LinkedObject::getSymbol` (lines 192-203): null when the name
is absent from the table or filtered out by `ExportedSymbolsOnly`; a
materializer-backed symbol while the module is not finalized; the evaluated
table entry afterwards. -/
def LinkedObject.getSymbol (lo : LinkedObject) (Name : String)
    (ExportedSymbolsOnly : Bool) : JITSymbol :=
  match tblFind lo.SymbolTable Name with
  | none => .null
  | some s =>
    if !s.exported && ExportedSymbolsOnly then .null
    else if !lo.Finalized then .materialize Name s.exported
    else .evaluated s

/-- The symbol-table copy of `finalize` (lines 280-284): write every entry
of the `RuntimeDyld` table into the module table with `operator[]`. -/
def copySymTab (dst : SymTab) : SymTab → SymTab
  | [] => dst
  | kv :: rest => copySymTab (setEntry dst kv.1 kv.2) rest

/-- Model of `ConcreteLinkedObject::finalize` (lines 265-303).  Faithful
control flow: the `assert(PFC && ...)` guard; `Finalized = true` set before
the load (line 274); the symbol-table copy out of `RuntimeDyld` (lines
280-284) before the error check; on `hasError` (line 291) the `StringError`
is returned with no rollback of any of the above and `PFC` retained (the
early return skips line 301); on success `PFC` is released.  Returns the
mutated module and the optional error. -/
def LinkedObject.finalize (lo : LinkedObject) (load : LoadResult) :
    LinkedObject × Option JitError :=
  match lo.PFC with
  | none => (lo, some .assertPFC)
  | some _ =>
    let lo1 : LinkedObject :=
      { lo with
        Finalized := true
        SymbolTable := copySymTab lo.SymbolTable load.symtab }
    if load.hasError then (lo1, some (.rtDyldError load.errMsg))
    else ({ lo1 with PFC := none }, none)

/-- The observable state of a `ConcreteLinkedObject` in the middle of
`finalize`, after `Finalized = true` (line 274) and the symbol-table copy
(lines 280-284), while `finalizeWithMemoryManagerLocking` (line 289) is
still running: this is the state a re-entrant symbol lookup issued from
inside relocation resolution observes. -/
def LinkedObject.midFinalize (lo : LinkedObject) (load : LoadResult) :
    LinkedObject :=
  { lo with
    Finalized := true
    SymbolTable := copySymTab lo.SymbolTable load.symtab }

/-- Model of running the functor returned by
`ConcreteLinkedObject::getSymbolMaterializer` (lines 305-315): re-check the
`Finalized` flag; if still unset, run `finalize` (propagating its error);
then return `getSymbol(Name, false).getAddress()`.  Returns the lookup
outcome together with the (possibly mutated) module. -/
def runMaterializer (lo : LinkedObject) (Name : String) (load : LoadResult) :
    Except JitError Nat × LinkedObject :=
  if !lo.Finalized then
    match lo.finalize load with
    | (lo1, some e) => (.error e, lo1)
    | (lo1, none) => (.ok ((lo1.getSymbol Name false).getAddress), lo1)
  else (.ok ((lo.getSymbol Name false).getAddress), lo)

/-- Construction of a fresh `ConcreteLinkedObject` (constructor, lines
239-255, via `createLinkedObject`): initial symbol table built from the
object, not finalized, pre-finalize contents present. -/
def createLinkedObject (obj : ObjectFile) : LinkedObject :=
  { SymbolTable := buildInitialSymbolTable obj
    Finalized := false
    PFC := some ⟨obj⟩ }

/-- Lookup in the `std::map<VModuleKey, LinkedObject>` model
(`LinkedObjects.count` / `operator[]` on an existing key). -/
def mapFind? (K : Nat) : List (Nat × LinkedObject) → Option LinkedObject
  | [] => none
  | kv :: rest => if kv.1 = K then some kv.2 else mapFind? K rest

/-- Insert-or-assign at the sorted position, modelling
`LinkedObjects[K] = ...` on `std::map` (which keeps keys in ascending
order). -/
def mapInsert (K : Nat) (v : LinkedObject) :
    List (Nat × LinkedObject) → List (Nat × LinkedObject)
  | [] => [(K, v)]
  | kv :: rest =>
    if K < kv.1 then (K, v) :: kv :: rest
    else if K = kv.1 then (K, v) :: rest
    else kv :: mapInsert K v rest

/-- Erasure of a key, modelling `LinkedObjects.erase(K)`. -/
def mapErase (K : Nat) : List (Nat × LinkedObject) → List (Nat × LinkedObject)
  | [] => []
  | kv :: rest => if kv.1 = K then mapErase K rest else kv :: mapErase K rest

/-- The keys of the module map are in strictly ascending order — the
representation invariant of `std::map` iteration. -/
def SortedKeys (m : List (Nat × LinkedObject)) : Prop :=
  List.Pairwise (fun a b => a.1 < b.1) m

/-- Model of `ScoreLinkingLayer` (lines 211-535): the only state the
embedding needs is the `LinkedObjects` map (line 529). -/
structure ScoreLinkingLayer where
  LinkedObjects : List (Nat × LinkedObject)
deriving DecidableEq

/-- Model of `ScoreLinkingLayer::addObject` (lines 438-459): parse the
buffer with `createObjectFile` (error out on failure); `assert` that the
key is not already in use; then create and store the linked object.  No
inspection of any symbol table of any live module takes place. -/
def ScoreLinkingLayer.addObject (st : ScoreLinkingLayer) (K : Nat)
    (ObjBuffer : ObjectBuffer) : ScoreLinkingLayer × Option JitError :=
  if !ObjBuffer.valid then (st, some .objectParse)
  else if (mapFind? K st.LinkedObjects).isSome then (st, some .assertKeyInUse)
  else
    ({ LinkedObjects := mapInsert K (createLinkedObject ObjBuffer.file) st.LinkedObjects },
     none)

/-- Model of `ScoreLinkingLayer::removeObject` (lines 469-475): `assert`
that the key is present, then erase the entry (destroying the
`LinkedObject` and with it every symbol definition it provided). -/
def ScoreLinkingLayer.removeObject (st : ScoreLinkingLayer) (K : Nat) :
    ScoreLinkingLayer × Option JitError :=
  if (mapFind? K st.LinkedObjects).isNone then (st, some .assertKeyMissing)
  else ({ LinkedObjects := mapErase K st.LinkedObjects }, none)

/-- The loop body of `ScoreLinkingLayer::findSymbol` (lines 481-490):
walk the map in iteration (ascending-key) order and return the first
symbol that converts to true; null when the walk falls through.  (The
`Sym.takeError()` branch is dead in this model: `getSymbol` never returns
an errorful symbol.) -/
def findSymbolGo (Name : String) (ExportedSymbolsOnly : Bool) :
    List (Nat × LinkedObject) → JITSymbol
  | [] => .null
  | kv :: rest =>
    let Sym := kv.2.getSymbol Name ExportedSymbolsOnly
    if Sym.toBool then Sym else findSymbolGo Name ExportedSymbolsOnly rest

/-- Model of `ScoreLinkingLayer::findSymbol` (lines 481-490). -/
def ScoreLinkingLayer.findSymbol (st : ScoreLinkingLayer) (Name : String)
    (ExportedSymbolsOnly : Bool) : JITSymbol :=
  findSymbolGo Name ExportedSymbolsOnly st.LinkedObjects

/-- Model of `ScoreLinkingLayer::emitAndFinalize` (lines 520-524): `assert`
that the key is present, then run `finalize` on that module (the C++
mutates the mapped object in place; here the mutated module is written
back at its key). -/
def ScoreLinkingLayer.emitAndFinalize (st : ScoreLinkingLayer) (K : Nat)
    (load : LoadResult) : ScoreLinkingLayer × Option JitError :=
  match mapFind? K st.LinkedObjects with
  | none => (st, some .assertKeyMissing)
  | some lo =>
    let r := lo.finalize load
    ({ LinkedObjects := mapInsert K r.1 st.LinkedObjects }, r.2)

/-- Model of `QString::remove(QChar)`: drop every occurrence of the
character. -/
def removeChar (c : Char) (s : String) : String :=
  ⟨s.data.filter (fun x => x ≠ c)⟩

/-- The data `loadAddon` returns to `setupAddon` (line 96): the parsed
json (only its "key" entry is used), the C++ source files, and the other
addon files. -/
structure AddonLoadResult where
  jsonKey : String
  cpp_files : List String
  files : List String
deriving DecidableEq

/-- Outcome of `ApplicationPlugin::setupAddon`: either one of the bare
early `return` statements was taken — nothing is submitted to the compiler
and no completion notification or diagnostic of any kind is produced — or
a job was submitted via `m_compiler.submitJob(id, cpp_files, flags)`. -/
inductive SetupAction where
  | skipped
  | submitted (id : String) (sources : List String) (flags : List String)
deriving DecidableEq

/-- Model of `ApplicationPlugin::setupAddon` (lines 88-108): return early
when the folder is named "Nodes"; return early (line 99) when the set of
C++ files is empty; otherwise submit the job whose id is the json "key"
with dashes removed and whose flags are the two include paths. -/
def setupAddon (addonFolderName addonPath addonFilesPath : String)
    (loaded : AddonLoadResult) : SetupAction :=
  if addonFolderName = "Nodes" then .skipped
  else if loaded.cpp_files.isEmpty then .skipped
  else
    .submitted (removeChar '-' loaded.jsonKey) loaded.cpp_files
      ["-I" ++ addonPath, "-I" ++ addonFilesPath]

/-- A defined, readable, exported object symbol with the given name. -/
def demoSym (n : String) : ObjSymbol :=
  { name := n, undefined := false, flagsOk := true, nameOk := true, exported := true }

/-- An object file defining exactly one exported symbol. -/
def demoObj (n : String) : ObjectFile := ⟨[demoSym n]⟩

/-- A valid buffer holding `demoObj n`. -/
def demoBuf (n : String) : ObjectBuffer := ⟨true, demoObj n⟩

/-- A successful `RuntimeDyld` run resolving the one symbol to address
`a`. -/
def demoLoad (n : String) (a : Nat) : LoadResult := ⟨[(n, ⟨a, true⟩)], false, ""⟩

/-! Basic lemmas on the symbol-table operations. -/

theorem tblFind_setEntry_self (t : SymTab) (n : String) (v : JITEvaluatedSymbol) :
    tblFind (setEntry t n v) n = some v := by
  induction t with
  | nil => simp [setEntry, tblFind]
  | cons kv rest ih =>
    by_cases h : kv.1 = n
    · simp [setEntry, h, tblFind]
    · simp [setEntry, h, tblFind, ih]

theorem tblFind_setEntry_ne (t : SymTab) (n m : String) (v : JITEvaluatedSymbol)
    (h : m ≠ n) : tblFind (setEntry t n v) m = tblFind t m := by
  induction t with
  | nil => simp [setEntry, tblFind, Ne.symm h]
  | cons kv rest ih =>
    by_cases hk : kv.1 = n
    · subst hk
      simp [setEntry, tblFind, Ne.symm h]
    · simp [setEntry, hk, tblFind, ih]

theorem tblFind_mem {t : SymTab} {n : String} {s : JITEvaluatedSymbol}
    (h : tblFind t n = some s) : (n, s) ∈ t := by
  induction t with
  | nil => simp [tblFind] at h
  | cons kv rest ih =>
    by_cases hk : kv.1 = n
    · rw [tblFind, if_pos hk] at h
      obtain ⟨k1, k2⟩ := kv
      simp only at hk h
      subst hk
      obtain rfl : k2 = s := Option.some.inj h
      exact List.mem_cons_self _ _
    · rw [tblFind, if_neg hk] at h
      exact List.mem_cons_of_mem _ (ih h)

theorem copySymTab_find_of_not_mem (src : SymTab) (d : SymTab) (n : String)
    (h : ∀ kv ∈ src, kv.1 ≠ n) :
    tblFind (copySymTab d src) n = tblFind d n := by
  induction src generalizing d with
  | nil => rfl
  | cons kv rest ih =>
    rw [copySymTab]
    rw [ih _ (fun x hx => h x (List.mem_cons_of_mem _ hx))]
    exact tblFind_setEntry_ne _ _ _ _ (fun e => h kv (List.mem_cons_self _ _) e.symm)

theorem copySymTab_find_of_find (src : SymTab) (d : SymTab) (n : String)
    (s : JITEvaluatedSymbol) (hnd : (src.map Prod.fst).Nodup)
    (h : tblFind src n = some s) :
    tblFind (copySymTab d src) n = some s := by
  induction src generalizing d with
  | nil => simp [tblFind] at h
  | cons kv rest ih =>
    rw [copySymTab]
    rw [List.map_cons, List.nodup_cons] at hnd
    by_cases hk : kv.1 = n
    · rw [tblFind, if_pos hk] at h
      obtain rfl : kv.2 = s := Option.some.inj h
      have hrest : ∀ x ∈ rest, x.1 ≠ n := by
        intro x hx e
        apply hnd.1
        have hmm : x.1 ∈ rest.map Prod.fst := List.mem_map_of_mem Prod.fst hx
        rw [e, ← hk] at hmm
        exact hmm
      rw [copySymTab_find_of_not_mem rest _ n hrest]
      subst hk
      exact tblFind_setEntry_self _ _ _
    · rw [tblFind, if_neg hk] at h
      exact ih _ hnd.2 h

theorem copySymTab_find_cases (src : SymTab) (d : SymTab) (n : String)
    (s : JITEvaluatedSymbol) (h : tblFind (copySymTab d src) n = some s) :
    (∃ kv, kv ∈ src ∧ kv.1 = n ∧ kv.2 = s) ∨
      (tblFind d n = some s ∧ ∀ kv ∈ src, kv.1 ≠ n) := by
  induction src generalizing d with
  | nil => right; exact ⟨h, by simp⟩
  | cons kv rest ih =>
    rw [copySymTab] at h
    rcases ih _ h with ⟨x, hx, hx1, hx2⟩ | ⟨hf, hno⟩
    · left; exact ⟨x, List.mem_cons_of_mem _ hx, hx1, hx2⟩
    · by_cases hk : kv.1 = n
      · left
        refine ⟨kv, List.mem_cons_self _ _, hk, ?_⟩
        subst hk
        rw [tblFind_setEntry_self] at hf
        exact Option.some.inj hf
      · right
        rw [tblFind_setEntry_ne _ _ _ _ (fun e => hk e.symm)] at hf
        refine ⟨hf, ?_⟩
        intro x hx
        rcases List.mem_cons.mp hx with rfl | hx2
        · exact hk
        · exact hno x hx2

theorem mem_insertIfAbsent {t : SymTab} {n : String} {v : JITEvaluatedSymbol}
    {kv : String × JITEvaluatedSymbol} (h : kv ∈ insertIfAbsent t n v) :
    kv ∈ t ∨ kv = (n, v) := by
  induction t with
  | nil =>
    right
    simpa [insertIfAbsent] using h
  | cons x rest ih =>
    by_cases hx : x.1 = n
    · rw [insertIfAbsent, if_pos hx] at h
      left; exact h
    · rw [insertIfAbsent, if_neg hx] at h
      rcases List.mem_cons.mp h with rfl | h2
      · left; exact List.mem_cons_self _ _
      · rcases ih h2 with h3 | h3
        · left; exact List.mem_cons_of_mem _ h3
        · right; exact h3

theorem foldl_buildSymStep_addr_zero (syms : List ObjSymbol) :
    ∀ t : SymTab, (∀ kv ∈ t, kv.2.address = 0) →
      ∀ kv ∈ syms.foldl buildSymStep t, kv.2.address = 0 := by
  induction syms with
  | nil => intro t ht kv h; exact ht kv h
  | cons s rest ih =>
    intro t ht kv h
    rw [List.foldl_cons] at h
    refine ih _ ?_ kv h
    intro x hx
    rw [buildSymStep] at hx
    split at hx
    · exact ht x hx
    · split at hx
      · exact ht x hx
      · rcases mem_insertIfAbsent hx with h2 | rfl
        · exact ht x h2
        · rfl

theorem buildInitialSymbolTable_addr_zero (obj : ObjectFile) :
    ∀ kv ∈ buildInitialSymbolTable obj, kv.2.address = 0 :=
  foldl_buildSymStep_addr_zero obj.symbols [] (by simp)

/-! Basic lemmas on the module-map operations. -/

theorem mapFind?_mapInsert_self (K : Nat) (v : LinkedObject) :
    ∀ m, mapFind? K (mapInsert K v m) = some v := by
  intro m
  induction m with
  | nil => simp [mapInsert, mapFind?]
  | cons kv rest ih =>
    rw [mapInsert]
    by_cases h1 : K < kv.1
    · simp [h1, mapFind?]
    · by_cases h2 : K = kv.1
      · simp [h1, h2, mapFind?]
      · have h3 : ¬kv.1 = K := fun e => h2 e.symm
        simp [h1, h2, mapFind?, h3, ih]

theorem mapFind?_mapInsert_ne (K K2 : Nat) (v : LinkedObject) (h : K2 ≠ K) :
    ∀ m, mapFind? K2 (mapInsert K v m) = mapFind? K2 m := by
  intro m
  have hK : ¬K = K2 := fun e => h e.symm
  induction m with
  | nil => simp [mapInsert, mapFind?, hK]
  | cons kv rest ih =>
    rw [mapInsert]
    by_cases h1 : K < kv.1
    · simp [h1, mapFind?, hK]
    · by_cases h2 : K = kv.1
      · have h3 : ¬kv.1 = K2 := by rw [← h2]; exact hK
        simp [h1, h2, mapFind?, hK, h3]
      · simp [h1, h2, mapFind?, ih]

theorem mem_mapInsert {K : Nat} {v : LinkedObject} {m : List (Nat × LinkedObject)}
    {kv : Nat × LinkedObject} (h : kv ∈ mapInsert K v m) : kv = (K, v) ∨ kv ∈ m := by
  induction m with
  | nil =>
    left
    simpa [mapInsert] using h
  | cons x rest ih =>
    rw [mapInsert] at h
    split at h
    · rcases List.mem_cons.mp h with rfl | h2
      · left; rfl
      · right; exact h2
    · split at h
      · rcases List.mem_cons.mp h with rfl | h2
        · left; rfl
        · right; exact List.mem_cons_of_mem _ h2
      · rcases List.mem_cons.mp h with rfl | h2
        · right; exact List.mem_cons_self _ _
        · rcases ih h2 with h3 | h3
          · left; exact h3
          · right; exact List.mem_cons_of_mem _ h3

theorem SortedKeys_mapInsert (K : Nat) (v : LinkedObject)
    {m : List (Nat × LinkedObject)} (h : SortedKeys m) :
    SortedKeys (mapInsert K v m) := by
  induction m with
  | nil => simp [mapInsert, SortedKeys]
  | cons kv rest ih =>
    rw [SortedKeys, List.pairwise_cons] at h
    rw [mapInsert]
    by_cases h1 : K < kv.1
    · rw [if_pos h1]
      rw [SortedKeys, List.pairwise_cons]
      refine ⟨?_, List.pairwise_cons.mpr ⟨h.1, h.2⟩⟩
      intro x hx
      rcases List.mem_cons.mp hx with rfl | hx2
      · exact h1
      · exact h1.trans (h.1 x hx2)
    · by_cases h2 : K = kv.1
      · rw [if_neg h1, if_pos h2]
        rw [SortedKeys, List.pairwise_cons]
        exact ⟨fun x hx => h2 ▸ h.1 x hx, h.2⟩
      · rw [if_neg h1, if_neg h2]
        rw [SortedKeys, List.pairwise_cons]
        refine ⟨?_, ih h.2⟩
        intro x hx
        rcases mem_mapInsert hx with rfl | hx2
        · exact lt_of_le_of_ne (Nat.le_of_not_lt h1) (fun e => h2 e.symm)
        · exact h.1 x hx2

theorem mapErase_sublist (K : Nat) : ∀ m, List.Sublist (mapErase K m) m := by
  intro m
  induction m with
  | nil => exact List.Sublist.refl _
  | cons kv rest ih =>
    rw [mapErase]
    by_cases h : kv.1 = K
    · rw [if_pos h]; exact ih.cons _
    · rw [if_neg h]; exact ih.cons₂ _

theorem SortedKeys_mapErase (K : Nat) {m : List (Nat × LinkedObject)}
    (h : SortedKeys m) : SortedKeys (mapErase K m) :=
  List.Pairwise.sublist (mapErase_sublist K m) h

theorem mem_mapErase {K : Nat} {m : List (Nat × LinkedObject)}
    {kv : Nat × LinkedObject} (h : kv ∈ mapErase K m) : kv ∈ m ∧ kv.1 ≠ K := by
  induction m with
  | nil => simp [mapErase] at h
  | cons x rest ih =>
    rw [mapErase] at h
    by_cases hx : x.1 = K
    · rw [if_pos hx] at h
      exact ⟨List.mem_cons_of_mem _ (ih h).1, (ih h).2⟩
    · rw [if_neg hx] at h
      rcases List.mem_cons.mp h with rfl | h2
      · exact ⟨List.mem_cons_self _ _, hx⟩
      · exact ⟨List.mem_cons_of_mem _ (ih h2).1, (ih h2).2⟩

theorem mapFind?_mapErase_self (K : Nat) (m : List (Nat × LinkedObject)) :
    mapFind? K (mapErase K m) = none := by
  induction m with
  | nil => rfl
  | cons kv rest ih =>
    rw [mapErase]
    by_cases h : kv.1 = K
    · rw [if_pos h]; exact ih
    · rw [if_neg h, mapFind?, if_neg h]; exact ih

theorem SortedKeys_keys_nodup {m : List (Nat × LinkedObject)} (h : SortedKeys m) :
    (m.map Prod.fst).Nodup := by
  have := List.Pairwise.map (R := fun a b : Nat × LinkedObject => a.1 < b.1)
    (S := fun a b : Nat => a ≠ b) Prod.fst (fun a b hab => Nat.ne_of_lt hab) h
  exact this

/-! Lemmas on the `findSymbol` walk. -/

theorem findSymbolGo_null (Name : String) (eo : Bool) :
    ∀ m, (∀ kv ∈ m, (kv.2.getSymbol Name eo).toBool = false) →
      findSymbolGo Name eo m = .null := by
  intro m
  induction m with
  | nil => intro _; rfl
  | cons kv rest ih =>
    intro h
    have h0 := h kv (List.mem_cons_self _ _)
    simp only [findSymbolGo, h0, Bool.false_eq_true, if_false]
    exact ih (fun x hx => h x (List.mem_cons_of_mem _ hx))

theorem findSymbolGo_min (Name : String) (eo : Bool) :
    ∀ m, SortedKeys m →
      ∀ K lo, (K, lo) ∈ m → (lo.getSymbol Name eo).toBool = true →
      (∀ K2 lo2, (K2, lo2) ∈ m → K2 < K → (lo2.getSymbol Name eo).toBool = false) →
      findSymbolGo Name eo m = lo.getSymbol Name eo := by
  intro m
  induction m with
  | nil => intro _ K lo h; simp at h
  | cons kv rest ih =>
    intro hs K lo hmem htrue hmin
    rw [SortedKeys, List.pairwise_cons] at hs
    rcases List.mem_cons.mp hmem with heq | hmem2
    · rw [findSymbolGo]
      simp only [← heq, htrue, if_true]
    · have hlt : kv.1 < K := hs.1 (K, lo) hmem2
      have hfalse : (kv.2.getSymbol Name eo).toBool = false :=
        hmin kv.1 kv.2 (List.mem_cons_self _ _) hlt
      rw [findSymbolGo]
      simp only [hfalse, Bool.false_eq_true, if_false]
      exact ih hs.2 K lo hmem2 htrue
        (fun K2 lo2 h2 hl => hmin K2 lo2 (List.mem_cons_of_mem _ h2) hl)

/-- Lookup on a not-yet-finalized module never produces an evaluated
address: it is either null (name absent or filtered) or backed by a
materializer. -/
theorem getSymbol_not_finalized (lo : LinkedObject) (hf : lo.Finalized = false)
    (n : String) (eo : Bool) :
    lo.getSymbol n eo = .null ∨ ∃ e, lo.getSymbol n eo = .materialize n e := by
  rw [LinkedObject.getSymbol]
  cases hfind : tblFind lo.SymbolTable n with
  | none => left; rfl
  | some s0 =>
    by_cases hexp : (!s0.exported && eo) = true
    · left
      simp [hexp]
    · right
      exact ⟨s0.exported, by simp [hexp, hf]⟩

/-- Lookup on a finalized module returns the evaluated table entry when the
name is present and passes the exported filter. -/
theorem getSymbol_finalized (lo : LinkedObject) (eo : Bool)
    (hf : lo.Finalized = true) (n : String) (s : JITEvaluatedSymbol)
    (h : tblFind lo.SymbolTable n = some s) (he : (!s.exported && eo) = false) :
    lo.getSymbol n eo = .evaluated s := by
  rw [LinkedObject.getSymbol]
  simp [h, he, hf]

/-! Concrete demonstration states used by the counterexamples and
witnesses below. -/

/-- The layer after `addObject(1, demoBuf "shared_sym")` on the empty
layer. -/
def c1St1 : ScoreLinkingLayer :=
  ((⟨[]⟩ : ScoreLinkingLayer).addObject 1 (demoBuf "shared_sym")).1

/-- `c1St1` after `emitAndFinalize(1)` resolving `shared_sym` to address
1000: one live, finalized module exporting `shared_sym`. -/
def c1St2 : ScoreLinkingLayer :=
  (c1St1.emitAndFinalize 1 (demoLoad "shared_sym" 1000)).1

/-- The result of adding, under fresh key 2, a second object that defines
the very same exported name `shared_sym` already finalized by module 1. -/
def c1Add2 : ScoreLinkingLayer × Option JitError :=
  c1St2.addObject 2 (demoBuf "shared_sym")

/-- A fresh module defining `foo`, about to be finalized. -/
def c2Lo : LinkedObject := createLinkedObject (demoObj "foo")

/-- A failed `RuntimeDyld` run: `loadObject` reported `foo` at address 4096
but `hasError()` holds after `finalizeWithMemoryManagerLocking`. -/
def c2Load : LoadResult := ⟨[("foo", ⟨4096, true⟩)], true, "relocation overflow"⟩

/-- A layer holding two finalized modules that both export `dup`: module 1
resolves it to 100, module 2 to 200 (reachable because `addObject` never
checks for symbol collisions). -/
def c5St : ScoreLinkingLayer :=
  (((((⟨[]⟩ : ScoreLinkingLayer).addObject 1 (demoBuf "dup")).1.emitAndFinalize 1
      (demoLoad "dup" 100)).1.addObject 2 (demoBuf "dup")).1.emitAndFinalize 2
      (demoLoad "dup" 200)).1

/-- A single finalized module exporting `dup` at address 100. -/
def c5Lo1 : LinkedObject :=
  ((createLinkedObject (demoObj "dup")).finalize (demoLoad "dup" 100)).1

/-- A layer whose only live module is `c5Lo1` under key 1. -/
def c5SmallSt : ScoreLinkingLayer := ⟨[(1, c5Lo1)]⟩

/-! Claim C1. -/

/-- Claim C1, counterexample: module 1 is live and finalized with exported
symbol `shared_sym`; adding an object under key 2 that defines the same
exported name nevertheless succeeds (`addObject` returns no error, in
particular no symbol-collision error), and both modules are live
simultaneously — the claim says the second add must fail.  (The last
conjunct shows the first module's symbol is still resolvable, which is the
one part of the claim the code does satisfy.) -/
theorem C1_counterexample :
    (((⟨[]⟩ : ScoreLinkingLayer).addObject 1 (demoBuf "shared_sym")).2 = none) ∧
    ((c1St1.emitAndFinalize 1 (demoLoad "shared_sym" 1000)).2 = none) ∧
    (c1Add2.2 = none) ∧
    ((mapFind? 1 c1Add2.1.LinkedObjects).isSome = true) ∧
    ((mapFind? 2 c1Add2.1.LinkedObjects).isSome = true) ∧
    (c1Add2.1.findSymbol "shared_sym" true = .evaluated ⟨1000, true⟩) := by
  decide

/-- Claim C1 (amended): `addObject` performs no symbol-collision check at
all: adding an object under a fresh key succeeds whenever the buffer
parses, regardless of which symbol names any live module has already
finalized; two live modules may define the same exported name.  The
previously live modules are left untouched (so the first module's symbols
remain resolvable); when several live modules define the same name, lookup
resolves to the module with the smallest key. -/
theorem C1_no_collision_check (st : ScoreLinkingLayer) (K : Nat) (b : ObjectBuffer)
    (hv : b.valid = true) (hf : mapFind? K st.LinkedObjects = none) :
    (st.addObject K b).2 = none ∧
    mapFind? K (st.addObject K b).1.LinkedObjects = some (createLinkedObject b.file) ∧
    ∀ k, k ≠ K → mapFind? k (st.addObject K b).1.LinkedObjects = mapFind? k st.LinkedObjects := by
  have ha : st.addObject K b
      = (⟨mapInsert K (createLinkedObject b.file) st.LinkedObjects⟩, none) := by
    simp [ScoreLinkingLayer.addObject, hv, hf]
  refine ⟨by rw [ha], ?_, ?_⟩
  · rw [ha]
    exact mapFind?_mapInsert_self K _ st.LinkedObjects
  · intro k hk
    rw [ha]
    exact mapFind?_mapInsert_ne K k _ hk st.LinkedObjects

/-- Claim C1, witness for the amended theorem at the concrete collision
state: key 2 is fresh in `c1St2`, the buffer is valid, and the colliding
add succeeds. -/
theorem C1_no_collision_check_witness :
    (demoBuf "shared_sym").valid = true ∧
    mapFind? 2 c1St2.LinkedObjects = none ∧
    (c1St2.addObject 2 (demoBuf "shared_sym")).2 = none := by
  refine ⟨by decide, by decide, ?_⟩
  exact (C1_no_collision_check c1St2 2 (demoBuf "shared_sym") (by decide) (by decide)).1

/-! Claim C2. -/

/-- Claim C2, counterexample: finalizing `c2Lo` with a failing load returns
the relocation error, yet afterwards the module's symbol `foo` resolves to
the concrete address 4096 computed during the failed load — the claim says
that after the failure no symbol of the module may resolve to a concrete
address.  (`Finalized` is also left set and `PFC` retained, so nothing was
rolled back.) -/
theorem C2_counterexample :
    ((c2Lo.finalize c2Load).2 = some (.rtDyldError "relocation overflow")) ∧
    ((c2Lo.finalize c2Load).1.getSymbol "foo" true = .evaluated ⟨4096, true⟩) ∧
    ((c2Lo.finalize c2Load).1.Finalized = true) := by
  decide

/-- Claim C2 (amended): a relocation/load failure in `finalize` is not
atomic.  `Finalized` is set and the symbol table is overwritten with the
addresses computed by the failed load before the error check, and the
error return rolls nothing back (`PFC` included): the error is reported,
but every table entry afterwards resolves to the concrete address the
failed load computed for it. -/
theorem C2_finalize_not_atomic (lo : LinkedObject) (load : LoadResult)
    (pfc : PreFinalizeContents) (hp : lo.PFC = some pfc) (he : load.hasError = true) :
    lo.finalize load
      = ({ lo with
            Finalized := true
            SymbolTable := copySymTab lo.SymbolTable load.symtab },
         some (.rtDyldError load.errMsg)) ∧
    ∀ n s, tblFind (copySymTab lo.SymbolTable load.symtab) n = some s →
      (lo.finalize load).1.getSymbol n false = .evaluated s := by
  have h1 : lo.finalize load
      = ({ lo with
            Finalized := true
            SymbolTable := copySymTab lo.SymbolTable load.symtab },
         some (.rtDyldError load.errMsg)) := by
    simp [LinkedObject.finalize, hp, he]
  refine ⟨h1, ?_⟩
  intro n s hfind
  rw [h1]
  simp [LinkedObject.getSymbol, hfind]

/-- Claim C2, witness for the amended theorem at the concrete failing
load. -/
theorem C2_finalize_not_atomic_witness :
    c2Lo.PFC = some ⟨demoObj "foo"⟩ ∧
    c2Load.hasError = true ∧
    (c2Lo.finalize c2Load).2 = some (.rtDyldError "relocation overflow") := by
  refine ⟨by decide, by decide, ?_⟩
  have h := (C2_finalize_not_atomic c2Lo c2Load ⟨demoObj "foo"⟩ (by decide) (by decide)).1
  rw [h]
  rfl

/-! Claim C5. -/

/-- Claim C5, counterexample: modules 1 and 2 are both live and finalized
and both define `dup` (reachable since `addObject` never rejects
collisions).  Unloading module 1 succeeds and removes its entry, yet a
lookup of `dup` still resolves — to module 2's address 200 — even though no
new module redefined the name after the unload; the claim says every
subsequent lookup of the unloaded module's names must fail until a new
module redefines them. -/
theorem C5_counterexample :
    ((c5St.removeObject 1).2 = none) ∧
    (mapFind? 1 (c5St.removeObject 1).1.LinkedObjects = none) ∧
    ((c5St.removeObject 1).1.findSymbol "dup" true = .evaluated ⟨200, true⟩) := by
  decide

/-- Claim C5 (amended): unloading a live module removes it, and with it all
of its symbol definitions, from the layer; a subsequent `findSymbol` of a
name fails to resolve provided no *other* live module (pre-existing or
new) provides that name.  When another live module also defines the name,
the lookup keeps resolving to that module. -/
theorem C5_unload_removes_symbols (st : ScoreLinkingLayer) (K : Nat)
    (lo : LinkedObject) (h : mapFind? K st.LinkedObjects = some lo) :
    (st.removeObject K).2 = none ∧
    mapFind? K (st.removeObject K).1.LinkedObjects = none ∧
    ∀ n eo, (∀ kv ∈ st.LinkedObjects, kv.1 ≠ K → (kv.2.getSymbol n eo).toBool = false) →
      (st.removeObject K).1.findSymbol n eo = .null := by
  have hr : st.removeObject K = (⟨mapErase K st.LinkedObjects⟩, none) := by
    simp [ScoreLinkingLayer.removeObject, h]
  refine ⟨by rw [hr], ?_, ?_⟩
  · rw [hr]
    exact mapFind?_mapErase_self K st.LinkedObjects
  · intro n eo hno
    rw [hr, ScoreLinkingLayer.findSymbol]
    apply findSymbolGo_null
    intro kv hkv
    exact hno kv (mem_mapErase hkv).1 (mem_mapErase hkv).2

/-- Claim C5, witness for the amended theorem: a layer whose only module
exports `dup`; after unloading it, the lookup of `dup` returns the null
symbol. -/
theorem C5_unload_removes_symbols_witness :
    mapFind? 1 c5SmallSt.LinkedObjects = some c5Lo1 ∧
    (c5SmallSt.removeObject 1).2 = none ∧
    mapFind? 1 (c5SmallSt.removeObject 1).1.LinkedObjects = none ∧
    (c5SmallSt.removeObject 1).1.findSymbol "dup" true = .null := by
  refine ⟨by decide, ?_, ?_, ?_⟩
  · exact (C5_unload_removes_symbols c5SmallSt 1 c5Lo1 (by decide)).1
  · exact (C5_unload_removes_symbols c5SmallSt 1 c5Lo1 (by decide)).2.1
  · exact (C5_unload_removes_symbols c5SmallSt 1 c5Lo1 (by decide)).2.2 "dup" true
      (by decide)

/-! Claim C6. -/

/-- Claim C6, counterexample: a symbol lookup re-entered for the module
that is in the middle of its own `finalize` run (state `midFinalize`:
`Finalized` already set, table copied, `finalizeWithMemoryManagerLocking`
still running) does not fail fast with a cyclic-dependency error — it
succeeds and hands back the address from the module's current table.  The
error type of the layer has no cyclic-dependency constructor at all. -/
theorem C6_counterexample :
    (runMaterializer ((createLinkedObject (demoObj "f")).midFinalize (demoLoad "f" 500))
        "f" (demoLoad "f" 500)).1 = .ok 500 ∧
    (runMaterializer ((createLinkedObject (demoObj "f")).midFinalize (demoLoad "f" 500))
        "f" (demoLoad "f" 500)).2
      = (createLinkedObject (demoObj "f")).midFinalize (demoLoad "f" 500) := by
  exact ⟨rfl, rfl⟩

/-- Claim C6 (amended): `finalize` does mark the module as finalized
(`Finalized = true`) before the linking work, and the materializer
re-entered for the same module during that work therefore does not recurse
into `finalize`; but instead of failing fast with a cyclic-dependency
error, the re-entered call silently succeeds with whatever address the
module's current table holds. -/
theorem C6_reentry_silent (lo : LinkedObject) (load : LoadResult)
    (pfc : PreFinalizeContents) (hp : lo.PFC = some pfc) :
    (lo.midFinalize load).Finalized = true ∧
    (lo.finalize load).1.Finalized = true ∧
    (∀ n load2, runMaterializer (lo.midFinalize load) n load2
        = (.ok (((lo.midFinalize load).getSymbol n false).getAddress),
           lo.midFinalize load)) ∧
    (load.hasError = true →
       lo.finalize load = (lo.midFinalize load, some (.rtDyldError load.errMsg))) := by
  refine ⟨rfl, ?_, ?_, ?_⟩
  · by_cases he : load.hasError <;> simp [LinkedObject.finalize, hp, he]
  · intro n load2
    rfl
  · intro he
    simp [LinkedObject.finalize, hp, he, LinkedObject.midFinalize]

/-- Claim C6, witness for the amended theorem at a concrete module. -/
theorem C6_reentry_silent_witness :
    (createLinkedObject (demoObj "f")).PFC = some ⟨demoObj "f"⟩ ∧
    ((createLinkedObject (demoObj "f")).midFinalize (demoLoad "f" 500)).Finalized = true ∧
    ((createLinkedObject (demoObj "f")).finalize (demoLoad "f" 500)).1.Finalized = true := by
  refine ⟨by decide, ?_, ?_⟩
  · exact (C6_reentry_silent (createLinkedObject (demoObj "f")) (demoLoad "f" 500)
      ⟨demoObj "f"⟩ (by decide)).1
  · exact (C6_reentry_silent (createLinkedObject (demoObj "f")) (demoLoad "f" 500)
      ⟨demoObj "f"⟩ (by decide)).2.1

/-! Claim C9. -/

/-- Claim C9, counterexample: an addon whose source set is empty takes the
bare early `return` of `setupAddon` (line 99): nothing is submitted to the
compiler and no completion notification or diagnostic of any kind is
produced — the job is silently dropped, whereas the claim says it must be
reported as a failure via a completion notification with a diagnostic. -/
theorem C9_counterexample :
    setupAddon "MyAddon" "/lib/Addons/MyAddon" "/gen/MyAddon"
      ⟨"ab-cd", [], ["addon.json"]⟩ = .skipped := by
  decide

/-- Claim C9 (amended): a job whose source set is empty is tolerated
without a crash, but it is a silent no-op: `setupAddon` returns early,
submits nothing, and produces no completion notification or diagnostic
whatsoever. -/
theorem C9_empty_job_dropped (name pa pf : String) (loaded : AddonLoadResult)
    (h : loaded.cpp_files = []) :
    setupAddon name pa pf loaded = .skipped ∧
    ∀ id src flags, setupAddon name pa pf loaded ≠ .submitted id src flags := by
  have h1 : setupAddon name pa pf loaded = .skipped := by
    rw [setupAddon]
    by_cases hn : name = "Nodes"
    · rw [if_pos hn]
    · rw [if_neg hn]
      simp [h]
  refine ⟨h1, ?_⟩
  intro id src flags hc
  rw [h1] at hc
  exact SetupAction.noConfusion hc

/-- Claim C9, witness for the amended theorem at a concrete empty job. -/
theorem C9_empty_job_dropped_witness :
    ({ jsonKey := "k", cpp_files := [], files := [] } : AddonLoadResult).cpp_files = [] ∧
    setupAddon "A" "/p" "/q" ⟨"k", [], []⟩ = .skipped :=
  ⟨rfl, (C9_empty_job_dropped "A" "/p" "/q" ⟨"k", [], []⟩ rfl).1⟩

/-! Claim C3. -/

/-- Claim C3: for every module the invariant holds that before
finalization every symbol in its table is named but carries no concrete
address — the freshly built table maps every name to address 0, and a
lookup yields a materializer-backed symbol (or null under the filter),
never an evaluated address — and after a successful finalization every
exported symbol of its table has a concrete (non-null) address and
resolves to it, provided the `RuntimeDyld` run resolved every initial
table name to a non-null address (the contract of `loadObject` and
`getSymbolTable`). -/
theorem C3_symbol_invariant (obj : ObjectFile) (lo : LinkedObject)
    (hlo : lo = createLinkedObject obj) :
    lo.Finalized = false ∧
    (∀ n s, tblFind lo.SymbolTable n = some s → s.address = 0) ∧
    (∀ n eo, lo.getSymbol n eo = .null ∨
      ∃ e, lo.getSymbol n eo = .materialize n e) ∧
    (∀ n eo s, lo.getSymbol n eo ≠ .evaluated s) ∧
    (∀ load lo1, lo.finalize load = (lo1, none) →
      (∀ kv ∈ load.symtab, 0 < kv.2.address) →
      (∀ n s, tblFind lo.SymbolTable n = some s →
         ∃ kv ∈ load.symtab, kv.1 = n) →
      ∀ n s, tblFind lo1.SymbolTable n = some s →
        0 < s.address ∧ (s.exported = true → lo1.getSymbol n true = .evaluated s)) := by
  subst hlo
  have hFin : (createLinkedObject obj).Finalized = false := rfl
  refine ⟨rfl, ?_, ?_, ?_, ?_⟩
  · intro n s h
    exact buildInitialSymbolTable_addr_zero obj (n, s) (tblFind_mem h)
  · intro n eo
    exact getSymbol_not_finalized _ hFin n eo
  · intro n eo s h
    rcases getSymbol_not_finalized _ hFin n eo with h0 | ⟨e, h0⟩ <;>
      rw [h0] at h <;> exact JITSymbol.noConfusion h
  · intro load lo1 hfin hpos hcov n s hfind1
    cases he : load.hasError with
    | true =>
      exfalso
      simp [LinkedObject.finalize, createLinkedObject, he] at hfin
    | false =>
      have h3 := hfin
      simp only [LinkedObject.finalize, createLinkedObject, he, Bool.false_eq_true,
        if_false, Prod.mk.injEq] at h3
      obtain ⟨h31, -⟩ := h3
      subst h31
      simp only at hfind1
      rcases copySymTab_find_cases load.symtab _ n s hfind1 with
        ⟨kv, hmem, hk1, hk2⟩ | ⟨hdst, hno⟩
      · have hpos2 : 0 < s.address := by
          rw [← hk2]
          exact hpos kv hmem
        refine ⟨hpos2, ?_⟩
        intro hsexp
        apply getSymbol_finalized _ _ rfl _ _ hfind1
        rw [hsexp]
        rfl
      · exfalso
        obtain ⟨kv, hkmem, hkeq⟩ := hcov n s hdst
        exact hno kv hkmem hkeq

/-- Claim C3, witness: the fresh module over `demoObj "w"` is unfinalized
and its one table entry carries address 0. -/
theorem C3_symbol_invariant_witness :
    createLinkedObject (demoObj "w") = createLinkedObject (demoObj "w") ∧
    (createLinkedObject (demoObj "w")).Finalized = false ∧
    tblFind (createLinkedObject (demoObj "w")).SymbolTable "w" = some ⟨0, true⟩ ∧
    (⟨0, true⟩ : JITEvaluatedSymbol).address = 0 := by
  refine ⟨rfl, (C3_symbol_invariant (demoObj "w") _ rfl).1, by decide, ?_⟩
  exact (C3_symbol_invariant (demoObj "w") (createLinkedObject (demoObj "w")) rfl).2.1
    "w" ⟨0, true⟩ (by decide)

/-! Claim C4. -/

/-- Claim C4: for a not-yet-finalized module, running the materializer
returned by `getSymbolMaterializer` for a symbol name triggers the
module's `finalize`; the lookup returns only after that finalization
completed or failed — on success it returns the symbol's concrete address
from the load and the module ends finalized, and on failure it propagates
the finalization error.  Finalization is equally triggered explicitly by
`emitAndFinalize`, which runs the very same `finalize` on the module
stored under the key. -/
theorem C4_lazy_finalization (lo : LinkedObject) (n : String) (load : LoadResult)
    (s : JITEvaluatedSymbol) (pfc : PreFinalizeContents)
    (hf : lo.Finalized = false) (hp : lo.PFC = some pfc)
    (hnd : (load.symtab.map Prod.fst).Nodup)
    (hn : tblFind load.symtab n = some s) :
    (load.hasError = false →
       runMaterializer lo n load
         = (.ok s.address,
            { lo with
                Finalized := true
                SymbolTable := copySymTab lo.SymbolTable load.symtab
                PFC := none })) ∧
    (load.hasError = true →
       runMaterializer lo n load
         = (.error (.rtDyldError load.errMsg),
            { lo with
                Finalized := true
                SymbolTable := copySymTab lo.SymbolTable load.symtab })) ∧
    (∀ (st : ScoreLinkingLayer) (K : Nat), mapFind? K st.LinkedObjects = some lo →
       st.emitAndFinalize K load
         = (⟨mapInsert K (lo.finalize load).1 st.LinkedObjects⟩,
            (lo.finalize load).2)) := by
  refine ⟨?_, ?_, ?_⟩
  · intro he
    have hfin : lo.finalize load
        = ({ lo with
              Finalized := true
              SymbolTable := copySymTab lo.SymbolTable load.symtab
              PFC := none }, none) := by
      simp [LinkedObject.finalize, hp, he]
    have hget : ({ lo with
        Finalized := true
        SymbolTable := copySymTab lo.SymbolTable load.symtab
        PFC := none } : LinkedObject).getSymbol n false = .evaluated s := by
      apply getSymbol_finalized _ _ rfl
      · exact copySymTab_find_of_find load.symtab lo.SymbolTable n s hnd hn
      · simp
    simp [runMaterializer, hf, hfin, hget, JITSymbol.getAddress]
  · intro he
    have hfin : lo.finalize load
        = ({ lo with
              Finalized := true
              SymbolTable := copySymTab lo.SymbolTable load.symtab },
           some (.rtDyldError load.errMsg)) := by
      simp [LinkedObject.finalize, hp, he]
    simp [runMaterializer, hf, hfin]
  · intro st K hK
    simp [ScoreLinkingLayer.emitAndFinalize, hK]

/-- Claim C4, witness: the materializer of the fresh module over
`demoObj "m"`, run with a successful load resolving `m` to 9, returns
address 9. -/
theorem C4_lazy_finalization_witness :
    (createLinkedObject (demoObj "m")).Finalized = false ∧
    tblFind (demoLoad "m" 9).symtab "m" = some ⟨9, true⟩ ∧
    (runMaterializer (createLinkedObject (demoObj "m")) "m" (demoLoad "m" 9)).1
      = .ok 9 := by
  refine ⟨by decide, by decide, ?_⟩
  have h := (C4_lazy_finalization (createLinkedObject (demoObj "m")) "m" (demoLoad "m" 9)
      ⟨9, true⟩ ⟨demoObj "m"⟩ (by decide) (by decide) (by decide) (by decide)).1 rfl
  rw [h]

/-! Claim C7. -/

/-- Claim C7: `finalize` is one-shot.  After a completed finalization the
module's `PFC` is gone, so a second explicit `finalize` call is an error
(the `assert(PFC)` guard fires; the call does not succeed as a no-op),
while the materializer path re-checks the `Finalized` flag and therefore
never runs `finalize` a second time: on a finalized module it returns the
table address directly and leaves the module untouched. -/
theorem C7_finalize_one_shot (lo lo1 : LinkedObject) (load load2 : LoadResult)
    (h : lo.finalize load = (lo1, none)) :
    lo1.finalize load2 = (lo1, some .assertPFC) ∧
    ∀ n, runMaterializer lo1 n load2
      = (.ok ((lo1.getSymbol n false).getAddress), lo1) := by
  have key : lo1.PFC = none ∧ lo1.Finalized = true := by
    cases hp : lo.PFC with
    | none => simp [LinkedObject.finalize, hp] at h
    | some pfc =>
      cases he : load.hasError with
      | true => simp [LinkedObject.finalize, hp, he] at h
      | false =>
        simp only [LinkedObject.finalize, hp, he, Bool.false_eq_true, if_false,
          Prod.mk.injEq] at h
        obtain ⟨h1, -⟩ := h
        rw [← h1]
        exact ⟨rfl, rfl⟩
  refine ⟨?_, ?_⟩
  · simp [LinkedObject.finalize, key.1]
  · intro n
    simp [runMaterializer, key.2]

/-- Claim C7, witness: finalizing the module over `demoObj "g"` once
succeeds; an explicit second `finalize` on the result is an error rather
than a no-op success. -/
theorem C7_finalize_one_shot_witness :
    (createLinkedObject (demoObj "g")).finalize (demoLoad "g" 3)
      = (((createLinkedObject (demoObj "g")).finalize (demoLoad "g" 3)).1, none) ∧
    ((createLinkedObject (demoObj "g")).finalize (demoLoad "g" 3)).1.finalize
        (demoLoad "g" 3)
      = (((createLinkedObject (demoObj "g")).finalize (demoLoad "g" 3)).1,
         some .assertPFC) := by
  refine ⟨by decide, ?_⟩
  exact (C7_finalize_one_shot (createLinkedObject (demoObj "g"))
    (((createLinkedObject (demoObj "g")).finalize (demoLoad "g" 3)).1)
    (demoLoad "g" 3) (demoLoad "g" 3) (by decide)).1

/-! Claim C8. -/

/-- Claim C8: module keys are unique across the process.  Adding an object
under a key that is already live is an error (the
`assert(!LinkedObjects.count(K))` guard fires and nothing is linked), and
both `addObject` and `removeObject` preserve the strictly-ascending-key
invariant of the module map, whose keys are therefore always distinct. -/
theorem C8_key_uniqueness (st : ScoreLinkingLayer) (K : Nat) (b : ObjectBuffer)
    (lo : LinkedObject) (h : mapFind? K st.LinkedObjects = some lo)
    (hv : b.valid = true) :
    st.addObject K b = (st, some .assertKeyInUse) ∧
    (∀ st2 : ScoreLinkingLayer, SortedKeys st2.LinkedObjects →
       ∀ K2 b2, SortedKeys (st2.addObject K2 b2).1.LinkedObjects) ∧
    (∀ st2 : ScoreLinkingLayer, SortedKeys st2.LinkedObjects →
       ∀ K2, SortedKeys (st2.removeObject K2).1.LinkedObjects) ∧
    (∀ m : List (Nat × LinkedObject), SortedKeys m → (m.map Prod.fst).Nodup) := by
  refine ⟨?_, ?_, ?_, fun m hm => SortedKeys_keys_nodup hm⟩
  · simp [ScoreLinkingLayer.addObject, hv, h]
  · intro st2 hs K2 b2
    simp only [ScoreLinkingLayer.addObject]
    by_cases h1 : (!b2.valid) = true
    · rw [if_pos h1]
      exact hs
    · rw [if_neg h1]
      by_cases h2 : (mapFind? K2 st2.LinkedObjects).isSome = true
      · rw [if_pos h2]
        exact hs
      · rw [if_neg h2]
        exact SortedKeys_mapInsert K2 _ hs
  · intro st2 hs K2
    simp only [ScoreLinkingLayer.removeObject]
    by_cases h1 : (mapFind? K2 st2.LinkedObjects).isNone = true
    · rw [if_pos h1]
      exact hs
    · rw [if_neg h1]
      exact SortedKeys_mapErase K2 hs

/-- Claim C8, witness: re-adding key 1 while module 1 is live fails with
the key-in-use assertion error and leaves the layer unchanged. -/
theorem C8_key_uniqueness_witness :
    mapFind? 1 c5SmallSt.LinkedObjects = some c5Lo1 ∧
    (demoBuf "dup").valid = true ∧
    c5SmallSt.addObject 1 (demoBuf "dup") = (c5SmallSt, some .assertKeyInUse) := by
  refine ⟨by decide, by decide, ?_⟩
  exact (C8_key_uniqueness c5SmallSt 1 (demoBuf "dup") c5Lo1 (by decide) (by decide)).1

/-! Claim C10. -/

/-- Claim C10: `findSymbol` walks the live modules in ascending key order
(the map iteration order under its sorted-keys invariant) and returns the
symbol of the first module that provides the name subject to the
exported-only filter, so when several live modules define the same name
the lookup deterministically resolves to the module with the smallest key
— no ambiguity error exists — and it returns the null symbol when no live
module provides the name.  The last conjunct relates "provides" to "table
contains the name and passes the filter": such a module provides the name
whenever it is unfinalized (materializer attached) or its entry's address
is non-null. -/
theorem C10_findSymbol_order (st : ScoreLinkingLayer) (n : String) (eo : Bool)
    (hs : SortedKeys st.LinkedObjects) :
    ((∀ kv ∈ st.LinkedObjects, (kv.2.getSymbol n eo).toBool = false) →
       st.findSymbol n eo = .null) ∧
    (∀ K lo, (K, lo) ∈ st.LinkedObjects → (lo.getSymbol n eo).toBool = true →
       (∀ K2 lo2, (K2, lo2) ∈ st.LinkedObjects → K2 < K →
          (lo2.getSymbol n eo).toBool = false) →
       st.findSymbol n eo = lo.getSymbol n eo) ∧
    (∀ lo : LinkedObject, ∀ s, tblFind lo.SymbolTable n = some s →
       (!s.exported && eo) = false →
       (lo.Finalized = false ∨ s.address ≠ 0) →
       (lo.getSymbol n eo).toBool = true) := by
  refine ⟨?_, ?_, ?_⟩
  · intro h
    exact findSymbolGo_null n eo st.LinkedObjects h
  · intro K lo hmem ht hmin
    exact findSymbolGo_min n eo st.LinkedObjects hs K lo hmem ht hmin
  · intro lo s hfind hexp hcase
    cases hFin : lo.Finalized with
    | false =>
      simp [LinkedObject.getSymbol, hfind, hexp, hFin, JITSymbol.toBool]
    | true =>
      have hA : s.address ≠ 0 := by
        rcases hcase with hc | hc
        · rw [hFin] at hc
          exact absurd hc (by simp)
        · exact hc
      simp [LinkedObject.getSymbol, hfind, hexp, hFin, JITSymbol.toBool, hA]

/-- Claim C10, witness: on a sorted singleton layer the walk returns the
one provider's symbol. -/
theorem C10_findSymbol_order_witness :
    SortedKeys c5SmallSt.LinkedObjects ∧
    c5SmallSt.findSymbol "dup" true = c5Lo1.getSymbol "dup" true := by
  have hsk : SortedKeys c5SmallSt.LinkedObjects := by
    simp [SortedKeys, c5SmallSt]
  refine ⟨hsk, ?_⟩
  apply (C10_findSymbol_order c5SmallSt "dup" true hsk).2.1 1 c5Lo1 (by decide) (by decide)
  intro K2 lo2 hmem2 hlt
  exfalso
  have hK2 : K2 = 1 := congrArg Prod.fst (List.mem_singleton.mp hmem2)
  omega

end Jit
